import Mathlib

/-!
# Verification of the gorest claims container and REST dispatch

Shallow embedding of `jwt/claims.go` (the `Claims` map type with its
coercive getters, reserved-claim accessors and JSON codec) and of
`handleJob` from the REST handler dispatch file, together with proofs of
the specification claims.

Modelling conventions:
* Go's `interface{}` values stored in claims are modelled by the
  inductive `Value` below, covering the JSON-compatible types plus the
  Go numeric types (`int`, `int32`, `int64`, `float64`) that the
  getters' type switches distinguish.  `float64` is modelled by `ℚ`
  (every finite float is a rational; float rounding itself is not what
  the claims are about).
* `type Claims map[string]interface{}` is modelled by an optional
  association list: `none` is the nil (uninitialized) map, `some m` an
  allocated map.  Lookup is first-match; `set` replaces in place or
  appends; `delete` removes the key, mirroring Go map semantics.
* Mutating methods (which in Go mutate the receiver map and return a
  previous value) return the pair (new claims, returned value).
* `time.Time` is modelled by `GoTime` (seconds since the Unix epoch
  plus nanoseconds); `time.Unix(sec, 0)` and `t.Unix()` are the obvious
  projections, and Go's zero `time.Time{}` is 0001-01-01T00:00:00Z.
-/

namespace GoRest

/-- Go `interface{}` values as stored in a claims map, restricted to the
JSON-compatible shapes plus the numeric Go types the type switches in
`claims.go` distinguish.  `vnull` is the nil interface value. -/
inductive Value where
  | vnull  : Value
  | vbool  : Bool → Value
  | vint   : Int → Value
  | vint32 : Int → Value
  | vint64 : Int → Value
  | vfloat : ℚ → Value
  | vstr   : String → Value
  | vstrs  : List String → Value
  | varr   : List Value → Value
  | vobj   : List (String × Value) → Value

/-- Raw backing storage of an allocated Go map: association list with
first-match lookup. -/
abbrev RawMap := List (String × Value)

/-- First-match lookup, modelling `value, ok := m[key]`. -/
def RawMap.get : RawMap → String → Option Value
  | [], _ => none
  | (k, v) :: rest, key => if k = key then some v else RawMap.get rest key

/-- In-place update-or-append, modelling `m[key] = value`. -/
def RawMap.set : RawMap → String → Value → RawMap
  | [], key, v => [(key, v)]
  | (k, w) :: rest, key, v =>
      if k = key then (key, v) :: rest else (k, w) :: RawMap.set rest key v

/-- Key removal, modelling `delete(m, key)`. -/
def RawMap.del : RawMap → String → RawMap
  | [], _ => []
  | (k, w) :: rest, key =>
      if k = key then RawMap.del rest key else (k, w) :: RawMap.del rest key

/-- Go: `type Claims map[string]interface{}`.  `m = none` models the nil
(uninitialized) map, `m = some l` an allocated map. -/
structure Claims where
  m : Option RawMap

/-- Go: `func NewClaims() Claims { return Claims{} }`. -/
def NewClaims : Claims := ⟨some []⟩

/-- The nil (uninitialized) claims value, Go's `var claims jwt.Claims`. -/
def nilClaims : Claims := ⟨none⟩

/-- Go `Claims.Len`: 0 on the nil map, else the entry count. -/
def Claims.Len (c : Claims) : Nat :=
  match c.m with
  | none => 0
  | some l => l.length

/-- Go `Claims.Get`: `(nil, false)` on the nil map, else map lookup.
`none` models `(nil, false)`; `some v` models `(v, true)` (a stored nil
interface is `some .vnull`). -/
def Claims.Get (c : Claims) (key : String) : Option Value :=
  match c.m with
  | none => none
  | some l => RawMap.get l key

/-- Go `Claims.Contains`: presence via `Get`. -/
def Claims.Contains (c : Claims) (key : String) : Bool :=
  (c.Get key).isSome

/-- Go `Claims.Set`: on the nil map, return nil without writing; else
store and return the potential old value.  Result is (new claims,
returned old value). -/
def Claims.Set (c : Claims) (key : String) (value : Value) :
    Claims × Option Value :=
  match c.m with
  | none => (c, none)
  | some l => (⟨some (RawMap.set l key value)⟩, RawMap.get l key)

/-- Go `Claims.Delete`: `old, _ := c.Get(key); delete(c, key)` — on the
nil map `Get` yields nil and `delete` is a no-op. -/
def Claims.Delete (c : Claims) (key : String) : Claims × Option Value :=
  match c.m with
  | none => (c, none)
  | some l => (⟨some (RawMap.del l key)⟩, RawMap.get l key)

/-- Numeric value of a nonempty all-digit character list; `none` models a
`strconv` syntax error. -/
def decDigits? (cs : List Char) : Option Nat :=
  if cs = [] then none
  else if cs.all Char.isDigit then
    some (cs.foldl (fun n c => 10 * n + (c.toNat - 48)) 0)
  else none

/-- Largest `int64`, the bit size `strconv.ParseInt(v, 10, 64)` checks. -/
def int64Max : Int := 2 ^ 63 - 1

/-- Smallest `int64`. -/
def int64Min : Int := -(2 ^ 63)

/-- Go `strconv.ParseInt(s, 10, 64)`: optional sign, then a nonempty run
of decimal digits, with the value required to fit in `int64` (out of
range is an error, which `GetInt` turns into not-found).  The subsequent
Go conversion `int(i)` is the identity on a 64-bit platform. -/
def parseInt10 (s : String) : Option Int :=
  match s.toList with
  | '+' :: rest =>
      (decDigits? rest).bind fun n =>
        if (n : Int) ≤ int64Max then some (n : Int) else none
  | '-' :: rest =>
      (decDigits? rest).bind fun n =>
        if int64Min ≤ -(n : Int) then some (-(n : Int)) else none
  | cs =>
      (decDigits? cs).bind fun n =>
        if (n : Int) ≤ int64Max then some (n : Int) else none

/-- Go conversion `int64(f)` for a finite `float64` `f`: truncation
toward zero. -/
def ratTrunc (q : ℚ) : Int := if 0 ≤ q then ⌊q⌋ else ⌈q⌉

/-- Go `Claims.GetInt`: native `int` passes through, `float64` truncates
toward zero, a string is parsed base-10; everything else (including a
string parse failure) is `(0, false)`. -/
def Claims.GetInt (c : Claims) (key : String) : Int × Bool :=
  match c.Get key with
  | none => (0, false)
  | some (.vint n) => (n, true)
  | some (.vfloat q) => (ratTrunc q, true)
  | some (.vstr s) =>
      match parseInt10 s with
      | some i => (i, true)
      | none => (0, false)
  | some _ => (0, false)

/-- Mantissa and exponent of a decimal float literal assembled into an
exact rational. -/
def decTo (intDs fracDs : List Char) (e : Int) (neg : Bool) : ℚ :=
  let mant : ℚ :=
    (intDs.foldl (fun n c => 10 * n + (c.toNat - 48)) 0 : Nat) +
      ((fracDs.foldl (fun n c => 10 * n + (c.toNat - 48)) 0 : Nat) : ℚ) /
        (10 : ℚ) ^ fracDs.length
  let scaled : ℚ := if 0 ≤ e then mant * (10 : ℚ) ^ e.toNat else mant / (10 : ℚ) ^ (-e).toNat
  if neg then -scaled else scaled

/-- Exponent suffix of a float literal: empty, or `e`/`E` with optional
sign and a nonempty digit run. -/
def parseExpPart : List Char → Option Int
  | [] => some 0
  | c :: rest =>
      if c = 'e' ∨ c = 'E' then
        match rest with
        | '+' :: ds => (decDigits? ds).map fun n => (n : Int)
        | '-' :: ds => (decDigits? ds).map fun n => -(n : Int)
        | ds => (decDigits? ds).map fun n => (n : Int)
      else none

/-- Go `strconv.ParseFloat(s, 64)` restricted to finite decimal literals
(optional sign, digits with optional fraction part, optional decimal
exponent; at least one mantissa digit).  The value is kept exact as a
rational: rounding to the nearest `float64`, `Inf`/`NaN` literals and
the `ErrRange` overflow cases are floating-point representation issues
outside this model. -/
def parseFloatDec (s : String) : Option ℚ :=
  let signed : Bool × List Char :=
    match s.toList with
    | '+' :: rest => (false, rest)
    | '-' :: rest => (true, rest)
    | cs => (false, cs)
  let neg := signed.1
  let body := signed.2
  let intPart := body.span Char.isDigit
  match intPart.2 with
  | '.' :: afterDot =>
      let fracPart := afterDot.span Char.isDigit
      if intPart.1 = [] ∧ fracPart.1 = [] then none
      else (parseExpPart fracPart.2).map fun e => decTo intPart.1 fracPart.1 e neg
  | rest =>
      if intPart.1 = [] then none
      else (parseExpPart rest).map fun e => decTo intPart.1 [] e neg

/-- Go `Claims.GetFloat64`: native `int` widens, `float64` passes
through, a string is parsed as a decimal float; everything else is
`(0, false)`.  Widening is exact here (the model has no float rounding). -/
def Claims.GetFloat64 (c : Claims) (key : String) : ℚ × Bool :=
  match c.Get key with
  | none => (0, false)
  | some (.vint n) => ((n : ℚ), true)
  | some (.vfloat q) => (q, true)
  | some (.vstr s) =>
      match parseFloatDec s with
      | some q => (q, true)
      | none => (0, false)
  | some _ => (0, false)

/-- Go `time.Time`, reduced to the instant it denotes: seconds since the
Unix epoch plus a nanosecond part in `[0, 1e9)` (not enforced by the
type).  Monotonic-clock reading and location are irrelevant to the
claims and omitted. -/
structure GoTime where
  sec : Int
  nsec : Nat
deriving DecidableEq

/-- Go zero `time.Time{}`: 0001-01-01T00:00:00 UTC. -/
def GoTime.zero : GoTime := ⟨-62135596800, 0⟩

/-- Go `time.Unix(sec, 0)`. -/
def timeUnix (sec : Int) : GoTime := ⟨sec, 0⟩

/-- Go `t.Unix()`: whole seconds since the epoch, nanoseconds dropped. -/
def GoTime.Unix (t : GoTime) : Int := t.sec

/-- Two decimal digits. -/
def digit2? : List Char → Option (Nat × List Char)
  | a :: b :: rest =>
      if a.isDigit ∧ b.isDigit then
        some ((a.toNat - 48) * 10 + (b.toNat - 48), rest)
      else none
  | _ => none

/-- Four decimal digits. -/
def digit4? : List Char → Option (Nat × List Char)
  | a :: b :: c :: d :: rest =>
      if a.isDigit ∧ b.isDigit ∧ c.isDigit ∧ d.isDigit then
        some ((((a.toNat - 48) * 10 + (b.toNat - 48)) * 10 + (c.toNat - 48)) * 10
          + (d.toNat - 48), rest)
      else none
  | _ => none

/-- One expected literal character. -/
def expectCh (ch : Char) : List Char → Option (List Char)
  | c :: rest => if c = ch then some rest else none
  | [] => none

/-- Gregorian leap-year rule. -/
def isLeap (y : Nat) : Bool := y % 4 = 0 ∧ (y % 100 ≠ 0 ∨ y % 400 = 0)

/-- Length of a month (month out of 1..12 yields 0, rejecting the date). -/
def daysInMonth (y m : Nat) : Nat :=
  match m with
  | 1 => 31
  | 2 => if isLeap y then 29 else 28
  | 3 => 31
  | 4 => 30
  | 5 => 31
  | 6 => 30
  | 7 => 31
  | 8 => 31
  | 9 => 30
  | 10 => 31
  | 11 => 30
  | 12 => 31
  | _ => 0

/-- Days from 1970-01-01 to the proleptic-Gregorian date y-m-d, for
0 ≤ y ≤ 9999 and a valid month/day (civil-from-days algorithm, computed
in `Nat` after shifting the year by +400 to stay nonnegative). -/
def daysFromCivil (y m d : Nat) : Int :=
  let yy := y + 400
  let yAdj := if m ≤ 2 then yy - 1 else yy
  let era := yAdj / 400
  let yoe := yAdj % 400
  let mp := (m + 9) % 12
  let doy := (153 * mp + 2) / 5 + (d - 1)
  let doe := yoe * 365 + yoe / 4 - yoe / 100 + doy
  ((era * 146097 + doe : Nat) : Int) - 719468 - 146097

/-- Optional fractional-second part: absent, or a dot followed by one to
nine digits, scaled to nanoseconds. -/
def fracNsec? (cs : List Char) : Option (Nat × List Char) :=
  match cs with
  | '.' :: rest =>
      let p := rest.span Char.isDigit
      if p.1 = [] ∨ 9 < p.1.length then none
      else some ((p.1.foldl (fun n c => 10 * n + (c.toNat - 48)) 0) * 10 ^ (9 - p.1.length), p.2)
  | other => some (0, other)

/-- Trailing zone designator of the RFC 3339 layout `Z07:00`: `Z` for
UTC or a signed `hh:mm` offset, consuming the whole rest of the input.
The result is the offset in seconds east of UTC. -/
def zoneOffset? (cs : List Char) : Option Int :=
  match cs with
  | ['Z'] => some 0
  | '+' :: rest => (zoneHM? rest).map fun n => (n : Int)
  | '-' :: rest => (zoneHM? rest).map fun n => -(n : Int)
  | _ => none
where
  /-- Offset body `hh:mm`, in seconds. -/
  zoneHM? (cs : List Char) : Option Nat := do
    let (h, cs) ← digit2? cs
    let cs ← expectCh ':' cs
    let (mi, cs) ← digit2? cs
    if cs = [] ∧ h ≤ 23 ∧ mi ≤ 59 then some (h * 3600 + mi * 60) else none

/-- Go `time.Parse(time.RFC3339, s)`: strict fixed-layout parse of
`yyyy-mm-ddThh:mm:ss[.fff...](Z|±hh:mm)` with field range checks; any
syntax error, range violation or trailing input yields `none` (Go
returns a zero time and an error, never a partially parsed time). -/
def parseRFC3339 (s : String) : Option GoTime := do
  let cs := s.toList
  let (y, cs) ← digit4? cs
  let cs ← expectCh '-' cs
  let (mo, cs) ← digit2? cs
  let cs ← expectCh '-' cs
  let (d, cs) ← digit2? cs
  let cs ← expectCh 'T' cs
  let (h, cs) ← digit2? cs
  let cs ← expectCh ':' cs
  let (mi, cs) ← digit2? cs
  let cs ← expectCh ':' cs
  let (sec, cs) ← digit2? cs
  let (ns, cs) ← fracNsec? cs
  let off ← zoneOffset? cs
  if 1 ≤ mo ∧ mo ≤ 12 ∧ 1 ≤ d ∧ d ≤ daysInMonth y mo ∧ h ≤ 23 ∧ mi ≤ 59 ∧ sec ≤ 59 then
    some ⟨daysFromCivil y mo d * 86400 + ((h * 3600 + mi * 60 + sec : Nat) : Int) - off, ns⟩
  else none

/-- Go `Claims.GetTime`: `int`/`int32`/`int64` and (truncated) `float64`
are epoch seconds via `time.Unix`, a string is parsed strictly as
RFC 3339, anything else is `(time.Time{}, false)`. -/
def Claims.GetTime (c : Claims) (key : String) : GoTime × Bool :=
  match c.Get key with
  | none => (GoTime.zero, false)
  | some (.vint n) => (timeUnix n, true)
  | some (.vint32 n) => (timeUnix n, true)
  | some (.vint64 n) => (timeUnix n, true)
  | some (.vfloat q) => (timeUnix (ratTrunc q), true)
  | some (.vstr s) =>
      match parseRFC3339 s with
      | none => (GoTime.zero, false)
      | some t => (t, true)
  | some _ => (GoTime.zero, false)

/-- Go `Claims.SetTime`: read the old value through `GetTime`, store
`t.Unix()` (an `int64`), return the old time. -/
def Claims.SetTime (c : Claims) (key : String) (t : GoTime) : Claims × GoTime :=
  ((c.Set key (.vint64 t.Unix)).1, (c.GetTime key).1)

/-- String contents of a list of values, `none` as soon as one element
is not a string (the loop body of `makeStrings` in `Audience`). -/
def strsOf : List Value → Option (List String)
  | [] => some []
  | .vstr s :: rest => (strsOf rest).map fun tl => s :: tl
  | _ :: _ => none

/-- Helper `makeStrings` inside Go `Claims.Audience`: an empty argument
list or any non-string element yields `(nil, false)`. -/
def makeStrings (auds : List Value) : List String × Bool :=
  if auds.length = 0 then ([], false)
  else
    match strsOf auds with
    | some strs => (strs, true)
    | none => ([], false)

/-- Go `Claims.Audience`: type switch on the stored "aud" value.  A
`[]string` is returned as-is, a lone string becomes a one-element list,
a `[]interface{}` goes through `makeStrings` element-wise, any other
non-nil value hits the `case interface{}` catch-all as a one-element
`makeStrings` call, and a stored nil interface matches no case of the
Go type switch and falls through to `(nil, false)`. -/
def Claims.Audience (c : Claims) : List String × Bool :=
  match c.Get "aud" with
  | none => ([], false)
  | some (.vstrs ss) => (ss, true)
  | some (.vstr s) => ([s], true)
  | some (.varr vs) => makeStrings vs
  | some .vnull => ([], false)
  | some v => makeStrings [v]

/-- Go `Claims.SetAudience`: read the old audience, then delete on zero
arguments, store a bare string on one, store the full `[]string` on two
or more. -/
def Claims.SetAudience (c : Claims) (auds : List String) : Claims × List String :=
  let old := (c.Audience).1
  match auds with
  | [] => ((c.Delete "aud").1, old)
  | [a] => ((c.Set "aud" (.vstr a)).1, old)
  | _ => ((c.Set "aud" (.vstrs auds)).1, old)

/-- Go `Claims.Expiration`: `GetTime` on "exp". -/
def Claims.Expiration (c : Claims) : GoTime × Bool := c.GetTime "exp"

/-- Go `Claims.SetExpiration`: `SetTime` on "exp". -/
def Claims.SetExpiration (c : Claims) (t : GoTime) : Claims × GoTime :=
  c.SetTime "exp" t

/-- JSON string escaping for the encoder (the common short escapes plus
`\u` forms for remaining control characters; Go additionally escapes
`<`, `>`, `&` by default, which no claim depends on). -/
def escapeChar (ch : Char) : String :=
  if ch = '"' then "\\\""
  else if ch = '\\' then "\\\\"
  else if ch = '\n' then "\\n"
  else if ch = '\t' then "\\t"
  else if ch = '\r' then "\\r"
  else if ch.toNat < 32 then "\\u00" ++ toString (ch.toNat / 16) ++ toString (ch.toNat % 16)
  else String.singleton ch

/-- Quoted, escaped JSON string literal. -/
def escapeJSONString (s : String) : String :=
  "\"" ++ String.join (s.toList.map escapeChar) ++ "\""

mutual

/-- JSON encoding of a stored value, modelling `encoding/json.Marshal`.
The `vfloat` case prints the exact rational; Go's shortest-round-trip
float64 formatting is not modelled (no claim depends on the non-empty
encoder output). -/
def encodeValue : Value → String
  | .vnull => "null"
  | .vbool b => if b then "true" else "false"
  | .vint n => toString n
  | .vint32 n => toString n
  | .vint64 n => toString n
  | .vfloat q => toString q
  | .vstr s => escapeJSONString s
  | .vstrs ss => "[" ++ String.intercalate "," (ss.map escapeJSONString) ++ "]"
  | .varr vs => "[" ++ encodeArr vs ++ "]"
  | .vobj kvs => "\x7b" ++ encodeObjBody kvs ++ "\x7d"

/-- Comma-separated encoding of array elements. -/
def encodeArr : List Value → String
  | [] => ""
  | [v] => encodeValue v
  | v :: rest => encodeValue v ++ "," ++ encodeArr rest

/-- Comma-separated encoding of object members. -/
def encodeObjBody : List (String × Value) → String
  | [] => ""
  | [(k, v)] => escapeJSONString k ++ ":" ++ encodeValue v
  | (k, v) :: rest =>
      escapeJSONString k ++ ":" ++ encodeValue v ++ "," ++ encodeObjBody rest

end

/-- Insertion into a key-sorted association list. -/
def insertSorted (p : String × Value) : List (String × Value) → List (String × Value)
  | [] => [p]
  | q :: rest => if p.1 ≤ q.1 then p :: q :: rest else q :: insertSorted p rest

/-- Key-sorting of the map entries (Go's `json.Marshal` emits map keys
in sorted order). -/
def sortByKey (l : RawMap) : RawMap := l.foldr insertSorted []

/-- Domain error kinds of the claims codec, modelling the
`errors.Annotate(err, ErrJSONMarshalling/ErrJSONUnmarshalling, ...)`
wrapping. -/
inductive CodecErr where
  | marshalling (msg : String)
  | unmarshalling (msg : String)
deriving DecidableEq

/-- Go `Claims.MarshalJSON`: a container with zero entries (nil map
included) encodes to the literal `\x7b\x7d`; otherwise the map is JSON
encoded.  `json.Marshal` cannot fail on the `Value` shapes of this
model, so the `ErrJSONMarshalling` branch is dead here. -/
def Claims.MarshalJSON (c : Claims) : Except CodecErr String :=
  if c.Len = 0 then .ok "\x7b\x7d"
  else
    match c.m with
    | none => .ok "\x7b\x7d"
    | some l => .ok ("\x7b" ++ encodeObjBody (sortByKey l) ++ "\x7d")

/-- Go `Claims.UnmarshalJSON`.  The byte-slice argument is modelled
after JSON lexing: `none` is a nil byte slice (returned on immediately,
no error), `some d` is a byte slice whose bytes parse as the document
`d` (syntactically invalid bytes, which Go wraps into an
`ErrJSONUnmarshalling` error, are outside the model's input type).
`json.Unmarshal` of an object into the map reuses it, adding/replacing
the decoded keys and allocating when the map is nil; a JSON `null` sets
the map to nil; any other document is a type error, wrapped. -/
def Claims.UnmarshalJSON (c : Claims) (b : Option Value) : Except CodecErr Claims :=
  match b with
  | none => .ok c
  | some (.vobj kvs) =>
      let start : RawMap :=
        match c.m with
        | none => []
        | some l => l
      .ok ⟨some (kvs.foldl (fun acc kv => RawMap.set acc kv.1 kv.2) start)⟩
  | some .vnull => .ok ⟨none⟩
  | some _ => .error (.unmarshalling "json: cannot unmarshal value into Go value of type map")

/-- Typed errors of the REST dispatch layer (`ErrNoGetHandler` and
friends, plus `ErrMethodNotSupported`), together with a constructor for
errors returned by the handler methods themselves. -/
inductive RErr where
  | errNoGetHandler (id : String)
  | errNoHeadHandler (id : String)
  | errNoPutHandler (id : String)
  | errNoPostHandler (id : String)
  | errNoPatchHandler (id : String)
  | errNoDeleteHandler (id : String)
  | errNoOptionsHandler (id : String)
  | errMethodNotSupported (method : String)
  | handlerFailure (msg : String)
deriving DecidableEq

/-- Job as `handleJob` observes it: the request method string plus the
domain and resource path segments. -/
structure Job where
  method : String
  domain : String
  resource : String

/-- Signature of a Go handler method `func(job Job) (bool, error)`. -/
abbrev HFun := Job → Bool × Option RErr

/-- Resource handler: the identity string plus one optional capability
per verb interface of the source (`GetResourceHandler`,
`ReadResourceHandler`, ...).  A field being `some f` models the dynamic
type of the handler satisfying the corresponding interface, with body
`f`. -/
structure ResourceHandler where
  hID : String
  getH : Option HFun
  readH : Option HFun
  headH : Option HFun
  putH : Option HFun
  updateH : Option HFun
  postH : Option HFun
  createH : Option HFun
  patchH : Option HFun
  modifyH : Option HFun
  deleteH : Option HFun
  optionsH : Option HFun
  infoH : Option HFun

/-- Identity string `fmt.Sprintf("%s@%s/%s", handler.ID(), job.Domain(),
job.Resource())` built by the local `id` closure in `handleJob`. -/
def jobID (h : ResourceHandler) (job : Job) : String :=
  h.hID ++ "@" ++ job.domain ++ "/" ++ job.resource

/-- Go `handleJob`: switch on the request method; per verb, try the
native interface first, then the REST-convention alias where one
exists, else return the typed no-handler error carrying the identity
string; an unknown method yields `ErrMethodNotSupported`. -/
def handleJob (h : ResourceHandler) (job : Job) : Bool × Option RErr :=
  match job.method with
  | "GET" =>
      match h.getH with
      | some f => f job
      | none =>
          match h.readH with
          | some f => f job
          | none => (false, some (.errNoGetHandler (jobID h job)))
  | "HEAD" =>
      match h.headH with
      | some f => f job
      | none => (false, some (.errNoHeadHandler (jobID h job)))
  | "PUT" =>
      match h.putH with
      | some f => f job
      | none =>
          match h.updateH with
          | some f => f job
          | none => (false, some (.errNoPutHandler (jobID h job)))
  | "POST" =>
      match h.postH with
      | some f => f job
      | none =>
          match h.createH with
          | some f => f job
          | none => (false, some (.errNoPostHandler (jobID h job)))
  | "PATCH" =>
      match h.patchH with
      | some f => f job
      | none =>
          match h.modifyH with
          | some f => f job
          | none => (false, some (.errNoPatchHandler (jobID h job)))
  | "DELETE" =>
      match h.deleteH with
      | some f => f job
      | none => (false, some (.errNoDeleteHandler (jobID h job)))
  | "OPTIONS" =>
      match h.optionsH with
      | some f => f job
      | none =>
          match h.infoH with
          | some f => f job
          | none => (false, some (.errNoOptionsHandler (jobID h job)))
  | m => (false, some (.errMethodNotSupported m))

end GoRest

namespace GoRest

/-- Lookup after `RawMap.set` at the same key finds the new value. -/
theorem RawMap.get_set_self (l : RawMap) (key : String) (v : Value) :
    RawMap.get (RawMap.set l key v) key = some v := by
  induction l with
  | nil => simp [RawMap.set, RawMap.get]
  | cons p rest ih =>
      obtain ⟨k, w⟩ := p
      by_cases h : k = key
      · simp [RawMap.set, RawMap.get, h]
      · simp [RawMap.set, RawMap.get, h, ih]

/-- Lookup after `RawMap.set` at another key is unchanged. -/
theorem RawMap.get_set_other (l : RawMap) (key key' : String) (v : Value)
    (h : key ≠ key') : RawMap.get (RawMap.set l key v) key' = RawMap.get l key' := by
  induction l with
  | nil => simp [RawMap.set, RawMap.get, h]
  | cons p rest ih =>
      obtain ⟨k, w⟩ := p
      by_cases hk : k = key
      · subst hk
        simp [RawMap.set, RawMap.get, h]
      · simp only [RawMap.set, if_neg hk]
        by_cases hk' : k = key'
        · simp [RawMap.get, hk']
        · simp [RawMap.get, hk', ih]

/-- Lookup after `RawMap.del` at the same key is absent. -/
theorem RawMap.get_del_self (l : RawMap) (key : String) :
    RawMap.get (RawMap.del l key) key = none := by
  induction l with
  | nil => simp [RawMap.del, RawMap.get]
  | cons p rest ih =>
      obtain ⟨k, w⟩ := p
      by_cases h : k = key
      · simp [RawMap.del, h, ih]
      · simp [RawMap.del, RawMap.get, h, ih]

/-- Characterization of a successful `strsOf` run: the input is exactly
the string elements. -/
theorem strsOf_eq_some {vs : List Value} {ss : List String}
    (h : strsOf vs = some ss) : vs = ss.map Value.vstr := by
  induction vs generalizing ss with
  | nil =>
      simp [strsOf] at h
      simp [← h]
  | cons x rest ih =>
      cases x with
      | vstr s =>
          simp only [strsOf, Option.map_eq_some'] at h
          obtain ⟨tl, htl, hcons⟩ := h
          subst hcons
          simp [ih htl]
      | vnull => simp [strsOf] at h
      | vbool b => simp [strsOf] at h
      | vint n => simp [strsOf] at h
      | vint32 n => simp [strsOf] at h
      | vint64 n => simp [strsOf] at h
      | vfloat q => simp [strsOf] at h
      | vstrs ss' => simp [strsOf] at h
      | varr vs' => simp [strsOf] at h
      | vobj kvs => simp [strsOf] at h

/-- If every element is a string, `strsOf` succeeds with exactly those
strings. -/
theorem strsOf_of_all_str {vs : List Value}
    (h : ∀ x ∈ vs, ∃ s, x = Value.vstr s) :
    ∃ ss, strsOf vs = some ss ∧ vs = ss.map Value.vstr := by
  induction vs with
  | nil => exact ⟨[], rfl, rfl⟩
  | cons x rest ih =>
      obtain ⟨s, hs⟩ := h x (by simp)
      subst hs
      obtain ⟨ss, hss, hmap⟩ := ih (fun y hy => h y (by simp [hy]))
      exact ⟨s :: ss, by simp [strsOf, hss], by simp [hmap]⟩

/-- If some element is not a string, `strsOf` fails. -/
theorem strsOf_none_of_non_str {vs : List Value}
    (h : ∃ x ∈ vs, ∀ s, x ≠ Value.vstr s) : strsOf vs = none := by
  induction vs with
  | nil => simp at h
  | cons x rest ih =>
      obtain ⟨y, hy, hns⟩ := h
      rcases List.mem_cons.mp hy with hxy | hyr
      · subst hxy
        cases y with
        | vstr s => exact absurd rfl (hns s)
        | vnull => simp [strsOf]
        | vbool b => simp [strsOf]
        | vint n => simp [strsOf]
        | vint32 n => simp [strsOf]
        | vint64 n => simp [strsOf]
        | vfloat q => simp [strsOf]
        | vstrs ss' => simp [strsOf]
        | varr vs' => simp [strsOf]
        | vobj kvs => simp [strsOf]
      · cases x with
        | vstr s => simp [strsOf, ih ⟨y, hyr, hns⟩]
        | vnull => simp [strsOf]
        | vbool b => simp [strsOf]
        | vint n => simp [strsOf]
        | vint32 n => simp [strsOf]
        | vint64 n => simp [strsOf]
        | vfloat q => simp [strsOf]
        | vstrs ss' => simp [strsOf]
        | varr vs' => simp [strsOf]
        | vobj kvs => simp [strsOf]

/--
C1: on the nil-backed (uninitialized) claims container, `Set` and
`Delete` are no-ops returning the absent marker and never allocate a
backing map, and `Get`/`Contains` on the container (including the one
returned by `Set`/`Delete`) report absent/false for every key.
-/
theorem claim_C1_nil_claims_noop (key key' : String) (value : Value) :
    Claims.Set nilClaims key value = (nilClaims, none) ∧
    Claims.Delete nilClaims key = (nilClaims, none) ∧
    (Claims.Set nilClaims key value).1.m = none ∧
    (Claims.Delete nilClaims key).1.m = none ∧
    Claims.Get (Claims.Set nilClaims key value).1 key' = none ∧
    Claims.Contains (Claims.Delete nilClaims key).1 key' = false := by
  refine ⟨rfl, rfl, rfl, rfl, rfl, rfl⟩

/--
C2 (counterexample): the claim fails on a stored empty untyped
sequence.  With "aud" holding an empty `[]interface{}`, every element
is (vacuously) textual, yet `Audience` reports not-found instead of
returning the empty string sequence with found=true.
-/
theorem claim_C2_counterexample :
    Claims.Get ⟨some [("aud", Value.varr [])]⟩ "aud" = some (Value.varr []) ∧
    (∀ x ∈ ([] : List Value), ∃ s, x = Value.vstr s) ∧
    (Claims.Audience ⟨some [("aud", Value.varr [])]⟩).2 = false := by
  refine ⟨rfl, by simp, rfl⟩

/--
C2 (amended): `Audience` behaves as — an absent "aud" reports
not-found; a lone string `s` yields `([s], true)`; a typed string
sequence is returned as-is with found=true; an untyped sequence is
type-checked element-by-element, yielding the string sequence with
found=true when it is nonempty and every element is textual, and
not-found when any element is non-textual or the untyped sequence is
empty.
-/
theorem claim_C2_audience_read (c : Claims) :
    (c.Get "aud" = none → c.Audience = ([], false)) ∧
    (∀ s, c.Get "aud" = some (Value.vstr s) → c.Audience = ([s], true)) ∧
    (∀ ss, c.Get "aud" = some (Value.vstrs ss) → c.Audience = (ss, true)) ∧
    (∀ vs, c.Get "aud" = some (Value.varr vs) →
      ((∃ x ∈ vs, ∀ s, x ≠ Value.vstr s) → c.Audience = ([], false)) ∧
      (vs = [] → c.Audience = ([], false)) ∧
      (vs ≠ [] → (∀ x ∈ vs, ∃ s, x = Value.vstr s) →
        ∃ ss, c.Audience = (ss, true) ∧ vs = ss.map Value.vstr)) := by
  refine ⟨?_, ?_, ?_, ?_⟩
  · intro h
    simp [Claims.Audience, h]
  · intro s h
    simp [Claims.Audience, h]
  · intro ss h
    simp [Claims.Audience, h]
  · intro vs h
    refine ⟨?_, ?_, ?_⟩
    · intro hbad
      simp [Claims.Audience, h, makeStrings, strsOf_none_of_non_str hbad]
    · intro hnil
      subst hnil
      simp [Claims.Audience, h, makeStrings]
    · intro hne hall
      obtain ⟨ss, hss, hmap⟩ := strsOf_of_all_str hall
      refine ⟨ss, ?_, hmap⟩
      have hlen : vs.length ≠ 0 := by
        simpa [List.length_eq_zero] using hne
      simp [Claims.Audience, h, makeStrings, hlen, hss]

/--
C2 (witness): the amended audience read rule applied to an absent key
and to a stored lone string.
-/
theorem claim_C2_audience_read_witness :
    Claims.Audience ⟨some []⟩ = ([], false) ∧
    Claims.Audience ⟨some [("aud", Value.vstr "x")]⟩ = (["x"], true) :=
  ⟨(claim_C2_audience_read ⟨some []⟩).1 rfl,
   (claim_C2_audience_read ⟨some [("aud", Value.vstr "x")]⟩).2.1 "x" rfl⟩

/--
C3: on an initialized container, `SetAudience` with zero arguments
deletes the "aud" key entirely, with exactly one string stores the bare
string (a raw `Get` yields the string, not a one-element sequence), and
with two or more strings stores the full string sequence.
-/
theorem claim_C3_set_audience (l : RawMap) (a : String) (auds : List String) :
    Claims.Get (Claims.SetAudience ⟨some l⟩ []).1 "aud" = none ∧
    Claims.Get (Claims.SetAudience ⟨some l⟩ [a]).1 "aud" = some (Value.vstr a) ∧
    (2 ≤ auds.length →
      Claims.Get (Claims.SetAudience ⟨some l⟩ auds).1 "aud" = some (Value.vstrs auds)) := by
  refine ⟨?_, ?_, ?_⟩
  · simp [Claims.SetAudience, Claims.Delete, Claims.Get, RawMap.get_del_self]
  · simp [Claims.SetAudience, Claims.Set, Claims.Get, RawMap.get_set_self]
  · intro hlen
    match auds with
    | [] => simp at hlen
    | [x] => simp at hlen
    | x :: y :: rest =>
        simp [Claims.SetAudience, Claims.Set, Claims.Get, RawMap.get_set_self]

/--
C3 (witness): `SetAudience` with two audiences stores the two-element
sequence.
-/
theorem claim_C3_set_audience_witness :
    Claims.Get (Claims.SetAudience ⟨some []⟩ ["a", "b"]).1 "aud"
      = some (Value.vstrs ["a", "b"]) :=
  (claim_C3_set_audience [] "z" ["a", "b"]).2.2 (by decide)

/-- When `GetTime` reports not-found, the time it returns is the Go
zero time. -/
theorem getTime_zero_of_not_found (c : Claims) (key : String)
    (h : (c.GetTime key).2 = false) : (c.GetTime key).1 = GoTime.zero := by
  unfold Claims.GetTime at h ⊢
  cases hget : c.Get key with
  | none => simp [hget]
  | some v =>
      cases v with
      | vstr s =>
          cases hp : parseRFC3339 s with
          | none => simp [hget, hp]
          | some t => simp [hget, hp] at h
      | vnull => simp [hget]
      | vbool b => simp [hget]
      | vint n => simp [hget] at h
      | vint32 n => simp [hget] at h
      | vint64 n => simp [hget] at h
      | vfloat q => simp [hget] at h
      | vstrs ss => simp [hget]
      | varr vs => simp [hget]
      | vobj kvs => simp [hget]

/--
C4: on an initialized container, `SetExpiration t` followed by
`Expiration` returns found=true and the time `t` truncated to whole
seconds (nanoseconds discarded); generally `SetTime` stores `t.Unix()`
epoch seconds and returns the previous value coerced through `GetTime`,
the zero time when nothing coerces.
-/
theorem claim_C4_set_time (l : RawMap) (t : GoTime) (key : String) :
    Claims.Expiration (Claims.SetExpiration ⟨some l⟩ t).1 = (⟨t.sec, 0⟩, true) ∧
    Claims.Get (Claims.SetTime ⟨some l⟩ key t).1 key = some (Value.vint64 t.sec) ∧
    (Claims.SetTime ⟨some l⟩ key t).2 = (Claims.GetTime ⟨some l⟩ key).1 ∧
    ((Claims.GetTime ⟨some l⟩ key).2 = false →
      (Claims.SetTime ⟨some l⟩ key t).2 = GoTime.zero) := by
  refine ⟨?_, ?_, rfl, ?_⟩
  · simp [Claims.Expiration, Claims.SetExpiration, Claims.SetTime, Claims.Set,
      Claims.GetTime, Claims.Get, GoTime.Unix, timeUnix, RawMap.get_set_self]
  · simp [Claims.SetTime, Claims.Set, Claims.Get, GoTime.Unix, RawMap.get_set_self]
  · intro h
    exact getTime_zero_of_not_found ⟨some l⟩ key h

/--
C4 (witness): a sub-second expiration is truncated, and `SetTime` on a
non-coercible old value returns the zero time.
-/
theorem claim_C4_set_time_witness :
    Claims.Expiration (Claims.SetExpiration ⟨some []⟩ ⟨100, 999999999⟩).1
      = (⟨100, 0⟩, true) ∧
    (Claims.SetTime ⟨some [("exp", Value.vstr "bogus")]⟩ "exp" ⟨5, 7⟩).2
      = GoTime.zero :=
  ⟨(claim_C4_set_time [] ⟨100, 999999999⟩ "exp").1,
   (claim_C4_set_time [("exp", Value.vstr "bogus")] ⟨5, 7⟩ "exp").2.2.2 rfl⟩

/--
C5: a container that is uninitialized or has zero entries JSON-encodes
to exactly the empty-object literal with no error, never null.
-/
theorem claim_C5_marshal_empty (c : Claims) (h : c.m = none ∨ c.m = some []) :
    Claims.MarshalJSON c = .ok "\x7b\x7d" := by
  rcases h with h | h
  · simp [Claims.MarshalJSON, Claims.Len, h]
  · simp [Claims.MarshalJSON, Claims.Len, h]

/--
C5 (witness): the nil container and the freshly constructed empty
container both encode to the empty-object literal.
-/
theorem claim_C5_marshal_empty_witness :
    Claims.MarshalJSON nilClaims = .ok "\x7b\x7d" ∧
    Claims.MarshalJSON NewClaims = .ok "\x7b\x7d" :=
  ⟨claim_C5_marshal_empty nilClaims (Or.inl rfl),
   claim_C5_marshal_empty NewClaims (Or.inr rfl)⟩

/-- Folding `RawMap.set` over entries whose keys all differ from `key`
leaves the lookup at `key` unchanged. -/
theorem get_foldl_set_of_not_mem (kvs : List (String × Value)) (acc : RawMap)
    (key : String) (h : ∀ p ∈ kvs, p.1 ≠ key) :
    RawMap.get (kvs.foldl (fun acc kv => RawMap.set acc kv.1 kv.2) acc) key
      = RawMap.get acc key := by
  induction kvs generalizing acc with
  | nil => rfl
  | cons p rest ih =>
      simp only [List.foldl_cons]
      rw [ih _ (fun q hq => h q (by simp [hq]))]
      exact RawMap.get_set_other acc p.1 key p.2 (h p (by simp))

/--
C6: JSON decoding merges the decoded entries into the container's
existing entries — a pre-existing key not present in the input is still
present with its old value afterwards — and decoding a nil byte
sequence is an error-free no-op.
-/
theorem claim_C6_unmarshal_merge (c : Claims) (kvs : List (String × Value))
    (key : String) (v : Value) (hold : c.Get key = some v)
    (hnew : ∀ p ∈ kvs, p.1 ≠ key) :
    (∃ c', Claims.UnmarshalJSON c (some (Value.vobj kvs)) = .ok c' ∧
      c'.Get key = some v) ∧
    Claims.UnmarshalJSON c none = .ok c := by
  refine ⟨?_, rfl⟩
  cases hm : c.m with
  | none =>
      rw [Claims.Get, hm] at hold
      exact absurd hold (by simp)
  | some l =>
      refine ⟨⟨some (kvs.foldl (fun acc kv => RawMap.set acc kv.1 kv.2) l)⟩, ?_, ?_⟩
      · simp [Claims.UnmarshalJSON, hm]
      · rw [Claims.Get]
        simp only []
        rw [get_foldl_set_of_not_mem kvs l key hnew]
        rw [Claims.Get, hm] at hold
        exact hold

/--
C6 (witness): merging a one-entry document into a container keeps an
unrelated pre-existing entry, and nil bytes are a no-op.
-/
theorem claim_C6_unmarshal_merge_witness :
    Claims.Get ⟨some [("keep", Value.vstr "old"), ("new", Value.vint 1)]⟩ "keep"
      = some (Value.vstr "old") ∧
    Claims.UnmarshalJSON ⟨some [("keep", Value.vstr "old")]⟩ none
      = .ok ⟨some [("keep", Value.vstr "old")]⟩ := by
  have h := claim_C6_unmarshal_merge ⟨some [("keep", Value.vstr "old")]⟩
      [("new", Value.vint 1)] "keep" (Value.vstr "old") rfl (by simp)
  obtain ⟨⟨c', h1, h2⟩, h3⟩ := h
  have hc : Claims.UnmarshalJSON ⟨some [("keep", Value.vstr "old")]⟩
      (some (Value.vobj [("new", Value.vint 1)]))
      = .ok ⟨some [("keep", Value.vstr "old"), ("new", Value.vint 1)]⟩ := rfl
  have he := h1.symm.trans hc
  injection he with he'
  exact ⟨he' ▸ h2, h3⟩

/--
C7: `GetTime` interprets stored `int`/`int32`/`int64` values (and
`float64`, truncated by the `int64` conversion) as Unix epoch seconds
with found=true, parses a stored string strictly as RFC 3339 with a
malformed string reporting not-found and never a partially parsed time,
and reports not-found for every other stored type and for an absent
key.
-/
theorem claim_C7_get_time (c : Claims) (key : String) :
    (c.Get key = none → c.GetTime key = (GoTime.zero, false)) ∧
    (∀ n, c.Get key = some (Value.vint n) → c.GetTime key = (timeUnix n, true)) ∧
    (∀ n, c.Get key = some (Value.vint32 n) → c.GetTime key = (timeUnix n, true)) ∧
    (∀ n, c.Get key = some (Value.vint64 n) → c.GetTime key = (timeUnix n, true)) ∧
    (∀ q, c.Get key = some (Value.vfloat q) →
      c.GetTime key = (timeUnix (ratTrunc q), true)) ∧
    (∀ s, c.Get key = some (Value.vstr s) →
      (parseRFC3339 s = none → c.GetTime key = (GoTime.zero, false)) ∧
      (∀ t, parseRFC3339 s = some t → c.GetTime key = (t, true))) ∧
    (∀ b, c.Get key = some (Value.vbool b) → c.GetTime key = (GoTime.zero, false)) ∧
    (c.Get key = some Value.vnull → c.GetTime key = (GoTime.zero, false)) ∧
    (∀ ss, c.Get key = some (Value.vstrs ss) → c.GetTime key = (GoTime.zero, false)) ∧
    (∀ vs, c.Get key = some (Value.varr vs) → c.GetTime key = (GoTime.zero, false)) ∧
    (∀ kvs, c.Get key = some (Value.vobj kvs) → c.GetTime key = (GoTime.zero, false)) := by
  refine ⟨fun h => by simp [Claims.GetTime, h],
    fun n h => by simp [Claims.GetTime, h],
    fun n h => by simp [Claims.GetTime, h],
    fun n h => by simp [Claims.GetTime, h],
    fun q h => by simp [Claims.GetTime, h],
    fun s h => ⟨fun hp => by simp [Claims.GetTime, h, hp],
      fun t hp => by simp [Claims.GetTime, h, hp]⟩,
    fun b h => by simp [Claims.GetTime, h],
    fun h => by simp [Claims.GetTime, h],
    fun ss h => by simp [Claims.GetTime, h],
    fun vs h => by simp [Claims.GetTime, h],
    fun kvs h => by simp [Claims.GetTime, h]⟩

/--
C7 (witness): an integer epoch value, a well-formed RFC 3339 string and
a malformed string, each read through `GetTime`.
-/
theorem claim_C7_get_time_witness :
    Claims.GetTime ⟨some [("iat", Value.vint 1700000000)]⟩ "iat"
      = (timeUnix 1700000000, true) ∧
    Claims.GetTime ⟨some [("exp", Value.vstr "2023-11-14T22:13:20Z")]⟩ "exp"
      = (⟨1700000000, 0⟩, true) ∧
    Claims.GetTime ⟨some [("nbf", Value.vstr "not-a-time")]⟩ "nbf"
      = (GoTime.zero, false) :=
  ⟨(claim_C7_get_time ⟨some [("iat", Value.vint 1700000000)]⟩ "iat").2.1
      1700000000 rfl,
   ((claim_C7_get_time ⟨some [("exp", Value.vstr "2023-11-14T22:13:20Z")]⟩
      "exp").2.2.2.2.2.1 "2023-11-14T22:13:20Z" rfl).2 ⟨1700000000, 0⟩ (by rfl),
   ((claim_C7_get_time ⟨some [("nbf", Value.vstr "not-a-time")]⟩
      "nbf").2.2.2.2.2.1 "not-a-time" rfl).1 (by rfl)⟩

/--
C8: `GetInt` returns a stored native `int` directly, truncates a stored
`float64` toward zero (floor for nonnegative, ceiling for negative),
parses a stored string as a base-10 integer with parse failure
reporting not-found, and reports not-found for any other stored type
(boolean included) and an absent key; `GetFloat64` widens a stored
`int`, passes a stored `float64` through, parses a stored string as a
decimal float, and otherwise reports not-found.
-/
theorem claim_C8_get_int_float (c : Claims) (key : String) :
    (∀ n, c.Get key = some (Value.vint n) →
      c.GetInt key = (n, true) ∧ c.GetFloat64 key = ((n : ℚ), true)) ∧
    (∀ q, c.Get key = some (Value.vfloat q) →
      c.GetInt key = (ratTrunc q, true) ∧ c.GetFloat64 key = (q, true) ∧
      (0 ≤ q → (ratTrunc q : ℚ) ≤ q ∧ q < (ratTrunc q : ℚ) + 1) ∧
      (q < 0 → q ≤ (ratTrunc q : ℚ) ∧ (ratTrunc q : ℚ) - 1 < q)) ∧
    (∀ s, c.Get key = some (Value.vstr s) →
      (∀ i, parseInt10 s = some i → c.GetInt key = (i, true)) ∧
      (parseInt10 s = none → c.GetInt key = (0, false)) ∧
      (∀ q, parseFloatDec s = some q → c.GetFloat64 key = (q, true)) ∧
      (parseFloatDec s = none → c.GetFloat64 key = (0, false))) ∧
    (∀ b, c.Get key = some (Value.vbool b) →
      c.GetInt key = (0, false) ∧ c.GetFloat64 key = (0, false)) ∧
    (∀ n, c.Get key = some (Value.vint64 n) →
      c.GetInt key = (0, false) ∧ c.GetFloat64 key = (0, false)) ∧
    (c.Get key = none →
      c.GetInt key = (0, false) ∧ c.GetFloat64 key = (0, false)) := by
  refine ⟨?_, ?_, ?_, ?_, ?_, ?_⟩
  · intro n h
    exact ⟨by simp [Claims.GetInt, h], by simp [Claims.GetFloat64, h]⟩
  · intro q h
    refine ⟨by simp [Claims.GetInt, h], by simp [Claims.GetFloat64, h], ?_, ?_⟩
    · intro hq
      rw [ratTrunc, if_pos hq]
      exact ⟨Int.floor_le q, Int.lt_floor_add_one q⟩
    · intro hq
      rw [ratTrunc, if_neg (not_le.mpr hq)]
      constructor
      · exact Int.le_ceil q
      · have := Int.ceil_lt_add_one q
        linarith
  · intro s h
    refine ⟨fun i hp => by simp [Claims.GetInt, h, hp],
      fun hp => by simp [Claims.GetInt, h, hp],
      fun q hp => by simp [Claims.GetFloat64, h, hp],
      fun hp => by simp [Claims.GetFloat64, h, hp]⟩
  · intro b h
    exact ⟨by simp [Claims.GetInt, h], by simp [Claims.GetFloat64, h]⟩
  · intro n h
    exact ⟨by simp [Claims.GetInt, h], by simp [Claims.GetFloat64, h]⟩
  · intro h
    exact ⟨by simp [Claims.GetInt, h], by simp [Claims.GetFloat64, h]⟩

/--
C8 (witness): a native integer, a negative float truncated toward zero,
a numeric string, a non-numeric string and a boolean, each read through
`GetInt`, plus a decimal string through `GetFloat64`.
-/
theorem claim_C8_get_int_float_witness :
    Claims.GetInt ⟨some [("a", Value.vint 42)]⟩ "a" = (42, true) ∧
    Claims.GetInt ⟨some [("f", Value.vfloat (-79/10))]⟩ "f" = (-7, true) ∧
    Claims.GetInt ⟨some [("s", Value.vstr "123")]⟩ "s" = (123, true) ∧
    Claims.GetInt ⟨some [("x", Value.vstr "abc")]⟩ "x" = (0, false) ∧
    Claims.GetInt ⟨some [("b", Value.vbool true)]⟩ "b" = (0, false) ∧
    Claims.GetFloat64 ⟨some [("g", Value.vstr "2.5")]⟩ "g" = (5/2, true) := by
  have hf := (claim_C8_get_int_float ⟨some [("f", Value.vfloat (-79/10))]⟩ "f").2.1
      (-79/10) rfl
  have htr : ratTrunc (-79/10 : ℚ) = -7 := by
    rw [ratTrunc, if_neg (by norm_num)]
    norm_num [Int.ceil_eq_iff]
  refine ⟨((claim_C8_get_int_float ⟨some [("a", Value.vint 42)]⟩ "a").1 42 rfl).1,
    by rw [hf.1, htr],
    ((claim_C8_get_int_float ⟨some [("s", Value.vstr "123")]⟩ "s").2.2.1
      "123" rfl).1 123 rfl,
    (((claim_C8_get_int_float ⟨some [("x", Value.vstr "abc")]⟩ "x").2.2.1
      "abc" rfl).2.1 rfl),
    ((claim_C8_get_int_float ⟨some [("b", Value.vbool true)]⟩ "b").2.2.2.1
      true rfl).1,
    ((claim_C8_get_int_float ⟨some [("g", Value.vstr "2.5")]⟩ "g").2.2.1
      "2.5" rfl).2.2.1 (5/2) ?_⟩
  have h1 : parseFloatDec "2.5" = some (decTo ['2'] ['5'] 0 false) := rfl
  have h2 : decTo ['2'] ['5'] 0 false = 5/2 := by
    have c2 : '2'.toNat = 50 := rfl
    have c5 : '5'.toNat = 53 := rfl
    simp [decTo, c2, c5]
    norm_num
  rw [h1, h2]

/--
C9: for every handler and every request method the dispatch layer
handles, `handleJob` first probes the verb's native capability, then
the REST-convention alias where the convention defines one (read for
GET, update for PUT, create for POST, modify for PATCH, info for
OPTIONS; HEAD and DELETE have no alias), and only when no probe hits
does it return the typed no-handler error for that verb carrying the
formatted `handlerID@domain/resource` identity string.
-/
theorem claim_C9_dispatch (h : ResourceHandler) (job : Job) :
    (job.method = "GET" →
      (∀ f, h.getH = some f → handleJob h job = f job) ∧
      (h.getH = none → ∀ g, h.readH = some g → handleJob h job = g job) ∧
      (h.getH = none → h.readH = none → handleJob h job =
        (false, some (RErr.errNoGetHandler
          (h.hID ++ "@" ++ job.domain ++ "/" ++ job.resource))))) ∧
    (job.method = "HEAD" →
      (∀ f, h.headH = some f → handleJob h job = f job) ∧
      (h.headH = none → handleJob h job =
        (false, some (RErr.errNoHeadHandler
          (h.hID ++ "@" ++ job.domain ++ "/" ++ job.resource))))) ∧
    (job.method = "PUT" →
      (∀ f, h.putH = some f → handleJob h job = f job) ∧
      (h.putH = none → ∀ g, h.updateH = some g → handleJob h job = g job) ∧
      (h.putH = none → h.updateH = none → handleJob h job =
        (false, some (RErr.errNoPutHandler
          (h.hID ++ "@" ++ job.domain ++ "/" ++ job.resource))))) ∧
    (job.method = "POST" →
      (∀ f, h.postH = some f → handleJob h job = f job) ∧
      (h.postH = none → ∀ g, h.createH = some g → handleJob h job = g job) ∧
      (h.postH = none → h.createH = none → handleJob h job =
        (false, some (RErr.errNoPostHandler
          (h.hID ++ "@" ++ job.domain ++ "/" ++ job.resource))))) ∧
    (job.method = "PATCH" →
      (∀ f, h.patchH = some f → handleJob h job = f job) ∧
      (h.patchH = none → ∀ g, h.modifyH = some g → handleJob h job = g job) ∧
      (h.patchH = none → h.modifyH = none → handleJob h job =
        (false, some (RErr.errNoPatchHandler
          (h.hID ++ "@" ++ job.domain ++ "/" ++ job.resource))))) ∧
    (job.method = "DELETE" →
      (∀ f, h.deleteH = some f → handleJob h job = f job) ∧
      (h.deleteH = none → handleJob h job =
        (false, some (RErr.errNoDeleteHandler
          (h.hID ++ "@" ++ job.domain ++ "/" ++ job.resource))))) ∧
    (job.method = "OPTIONS" →
      (∀ f, h.optionsH = some f → handleJob h job = f job) ∧
      (h.optionsH = none → ∀ g, h.infoH = some g → handleJob h job = g job) ∧
      (h.optionsH = none → h.infoH = none → handleJob h job =
        (false, some (RErr.errNoOptionsHandler
          (h.hID ++ "@" ++ job.domain ++ "/" ++ job.resource))))) := by
  obtain ⟨m, dom, res⟩ := job
  refine ⟨?_, ?_, ?_, ?_, ?_, ?_, ?_⟩
  · intro hm
    subst hm
    exact ⟨fun f hf => by simp [handleJob, hf],
      fun h1 g hg => by simp [handleJob, jobID, h1, hg],
      fun h1 h2 => by simp [handleJob, jobID, h1, h2]⟩
  · intro hm
    subst hm
    exact ⟨fun f hf => by simp [handleJob, hf],
      fun h1 => by simp [handleJob, jobID, h1]⟩
  · intro hm
    subst hm
    exact ⟨fun f hf => by simp [handleJob, hf],
      fun h1 g hg => by simp [handleJob, jobID, h1, hg],
      fun h1 h2 => by simp [handleJob, jobID, h1, h2]⟩
  · intro hm
    subst hm
    exact ⟨fun f hf => by simp [handleJob, hf],
      fun h1 g hg => by simp [handleJob, jobID, h1, hg],
      fun h1 h2 => by simp [handleJob, jobID, h1, h2]⟩
  · intro hm
    subst hm
    exact ⟨fun f hf => by simp [handleJob, hf],
      fun h1 g hg => by simp [handleJob, jobID, h1, hg],
      fun h1 h2 => by simp [handleJob, jobID, h1, h2]⟩
  · intro hm
    subst hm
    exact ⟨fun f hf => by simp [handleJob, hf],
      fun h1 => by simp [handleJob, jobID, h1]⟩
  · intro hm
    subst hm
    exact ⟨fun f hf => by simp [handleJob, hf],
      fun h1 g hg => by simp [handleJob, jobID, h1, hg],
      fun h1 h2 => by simp [handleJob, jobID, h1, h2]⟩

/--
C9 (witness): a GET served by the native capability, a GET served by
the read alias when the native capability is absent, and the typed
failure with its identity string when both are absent.
-/
theorem claim_C9_dispatch_witness :
    handleJob ⟨"H", some (fun _ => (true, none)), none, none, none, none, none,
        none, none, none, none, none, none⟩ ⟨"GET", "dom", "res"⟩
      = (true, none) ∧
    handleJob ⟨"H", none, some (fun _ => (false, none)), none, none, none, none,
        none, none, none, none, none, none⟩ ⟨"GET", "dom", "res"⟩
      = (false, none) ∧
    handleJob ⟨"H", none, none, none, none, none, none,
        none, none, none, none, none, none⟩ ⟨"GET", "dom", "res"⟩
      = (false, some (RErr.errNoGetHandler "H@dom/res")) :=
  ⟨((claim_C9_dispatch _ _).1 rfl).1 _ rfl,
   ((claim_C9_dispatch _ _).1 rfl).2.1 rfl _ rfl,
   ((claim_C9_dispatch _ _).1 rfl).2.2 rfl rfl⟩

/--
C10: when "aud" stores an empty untyped sequence, `Audience` reports
not-found rather than an empty string sequence with found=true.
-/
theorem claim_C10_empty_untyped_audience (c : Claims)
    (h : c.Get "aud" = some (Value.varr [])) :
    c.Audience = ([], false) := by
  simp [Claims.Audience, h, makeStrings]

/--
C10 (witness): the empty-untyped-sequence rule at a concrete container.
-/
theorem claim_C10_empty_untyped_audience_witness :
    Claims.Audience ⟨some [("aud", Value.varr [])]⟩ = ([], false) :=
  claim_C10_empty_untyped_audience ⟨some [("aud", Value.varr [])]⟩ rfl

end GoRest
